import Mathlib

/-!
Verification development for the immich `BackupService`
(src/server/src/services/backup.service.ts).

The service is embedded shallowly:
* filename classification mirrors the two regexes
  `/immich-db-backup-\d+\.sql\.gz\.tmp$/` and `/immich-db-backup-\d+\.sql\.gz$/`
  used by `cleanupDatabaseBackups` (both are anchored only at the end of the
  name, so any string ending in the pattern matches);
* the retention sweep (`cleanupDatabaseBackups`) becomes a pure function from
  the keep-count and the directory listing to the list of files it unlinks;
  JavaScript's default `Array.prototype.sort()` (lexicographic by code unit)
  is modelled by sorting with an explicit code-point comparator;
* the dump-and-compress pipeline of `handleBackupDatabase` becomes a state
  machine over the events delivered to the promise executor (process `error`
  events and the two `exit` events, whose codes are `Option Int` because a
  process killed by a signal reports `null`), with the filesystem rename
  outcome a boolean parameter;
* `onBootstrap` / `onConfigUpdate` become transitions on a scheduler state
  holding the `backupLock` flag and the (at most one) registered cron job.
-/

namespace BackupVerify

/-- The literal part of the artifact names, `immich-db-backup-`. -/
def backupLit : List Char := "immich-db-backup-".data

/-- The final-artifact suffix `.sql.gz` of the regex
`/immich-db-backup-\d+\.sql\.gz$/`. -/
def finalSuffix : List Char := ".sql.gz".data

/-- The temporary-artifact suffix `.sql.gz.tmp` of the regex
`/immich-db-backup-\d+\.sql\.gz\.tmp$/`. -/
def tmpSuffix : List Char := ".sql.gz.tmp".data

/-- The string `.tmp` passed to `backupFilePath.replace('.tmp', '')`. -/
def tmpPat : List Char := ".tmp".data

/-- The regex class `\d`, i.e. the ASCII digits `0`–`9` (code points 48–57). -/
def isDig (c : Char) : Bool := 48 ≤ c.toNat && c.toNat ≤ 57

/-- One attempted match of `immich-db-backup-\d+<suffix>$` starting at the
head of `l`: the literal, then a nonempty digit run, then exactly `suffix`
to the end of the string.  (`\d+` is greedy and no shorter digit run can
succeed because `suffix` starts with `.`, which is not a digit, so the
greedy run is the only candidate.) -/
def artifactMatchHere (suffix l : List Char) : Bool :=
  backupLit.isPrefixOf l &&
    (!((l.drop backupLit.length).takeWhile isDig).isEmpty &&
      decide ((l.drop backupLit.length).dropWhile isDig = suffix))

/-- `file.match(regex)` is truthy: the end-anchored pattern matches starting
at some position of the string. -/
def artifactMatch (suffix : List Char) : List Char → Bool
  | [] => false
  | c :: rest => artifactMatchHere suffix (c :: rest) || artifactMatch suffix rest

/-- `file.match(/immich-db-backup-\d+\.sql\.gz$/)` is truthy
(the `backups` filter of `cleanupDatabaseBackups`). -/
def isBackupFile (f : String) : Bool := artifactMatch finalSuffix f.data

/-- `file.match(/immich-db-backup-\d+\.sql\.gz\.tmp$/)` is truthy
(the `failedBackups` filter of `cleanupDatabaseBackups`). -/
def isFailedBackupFile (f : String) : Bool := artifactMatch tmpSuffix f.data

/-- The whole name (not merely a suffix of it) is a well-formed final
artifact name `immich-db-backup-<digits>.sql.gz`. -/
def wellFormedFinalName (f : String) : Bool := artifactMatchHere finalSuffix f.data

/-- The whole name is a well-formed temporary artifact name
`immich-db-backup-<digits>.sql.gz.tmp`. -/
def wellFormedTmpName (f : String) : Bool := artifactMatchHere tmpSuffix f.data

/-- The final artifact name built from the digit string `d` of the embedded
timestamp: `immich-db-backup-<d>.sql.gz`. -/
def mkFinalName (d : List Char) : String := String.mk (backupLit ++ d ++ finalSuffix)

/-- The temporary artifact name `immich-db-backup-<d>.sql.gz.tmp` produced by
the template literal of `handleBackupDatabase` (`d` is the decimal digit
string of `Date.now()`). -/
def mkTmpName (d : List Char) : String := String.mk (backupLit ++ d ++ tmpSuffix)

/-- Numeric value of a decimal digit string (most significant digit first),
the embedded timestamp of an artifact name. -/
def digitsVal : List Char → Nat
  | [] => 0
  | c :: cs => (c.toNat - 48) * 10 ^ cs.length + digitsVal cs

/-- JavaScript string comparison `a < b`: lexicographic on the code units
(code points, for these ASCII names). -/
def charListLt : List Char → List Char → Bool
  | _, [] => false
  | [], _ :: _ => true
  | a :: as, b :: bs =>
      decide (a.toNat < b.toNat) || (decide (a.toNat = b.toNat) && charListLt as bs)

/-- The strict JavaScript string order on `String`. -/
def strLtB (a b : String) : Bool := charListLt a.data b.data

/-- `a` sorts no later than `b` under the default comparator of
`Array.prototype.sort()` (i.e. `¬ (b < a)`). -/
def strLe (a b : String) : Prop := charListLt b.data a.data = false

instance : DecidableRel strLe := fun a b =>
  inferInstanceAs (Decidable (charListLt b.data a.data = false))

/-- `files.filter((file) => file.match(/immich-db-backup-\d+\.sql\.gz\.tmp$/))`. -/
def failedBackups (files : List String) : List String :=
  files.filter (fun f => isFailedBackupFile f)

/-- `files.filter((file) => file.match(/immich-db-backup-\d+\.sql\.gz$/)).sort().reverse()`:
the final artifacts, sorted descending by name. -/
def backupsSorted (files : List String) : List String :=
  (List.insertionSort strLe (files.filter (fun f => isBackupFile f))).reverse

/-- `backups.slice(config.keepLastAmount)` followed by
`toDelete.push(...failedBackups)`: the deletion candidates of one sweep. -/
def toDelete (keep : Nat) (files : List String) : List String :=
  (backupsSorted files).drop keep ++ failedBackups files

/-- The final artifacts a sweep does not mark for deletion:
the first `keepLastAmount` entries of the descending sort. -/
def retainedBackups (keep : Nat) (files : List String) : List String :=
  (backupsSorted files).take keep

/-- The count reported by `Database Backup Cleanup Finished, deleted
${toDelete.length} backups`. -/
def cleanupDeletedCount (keep : Nat) (files : List String) : Nat :=
  (toDelete keep files).length

/-- The `for (const file of toDelete) { await unlink(...) }` loop: `fails f`
means the `unlink` promise for `f` rejects.  Returns the files for which an
`unlink` call was actually made; a rejection makes the `await` throw out of
`cleanupDatabaseBackups`, so the loop stops at the first failing file. -/
def sweepAttempts (fails : String → Bool) : List String → List String
  | [] => []
  | f :: rest => if fails f then [f] else f :: sweepAttempts fails rest

/-- `JobStatus` (modelled from the spec §4.3: `run(...) -> JobStatus
{SUCCESS, FAILED}`; the enum lives in src/interfaces/job.interface.ts,
which is not part of the excerpt). -/
inductive JobStatus
  | SUCCESS
  | FAILED
deriving DecidableEq

/-- The events the promise executor of `handleBackupDatabase` reacts to.
Exit codes are `Option Int`: Node reports `null` (here `none`) when the
process was terminated by a signal. -/
inductive RunEvent
  | pgError
  | gzError
  | pgExit (code : Option Int)
  | gzExit (code : Option Int)
deriving DecidableEq

/-- The mutable state of one `handleBackupDatabase` promise:
`pgExitCode` mirrors the `pgdump.exitCode` property (`none` until the
producer's exit is observed), `settled` is the promise state
(`some true` = resolved, `some false` = rejected, `none` = pending) and
`renamed` records whether the rename of the temporary artifact to its final
name has completed. -/
structure RunState where
  pgExitCode : Option Int := none
  settled : Option Bool := none
  renamed : Bool := false
deriving DecidableEq

/-- Settling a promise: the first `resolve`/`reject` wins, later calls are
no-ops. -/
def settle (b : Bool) (s : RunState) : RunState :=
  match s.settled with
  | none => { s with settled := some b }
  | some _ => s

/-- One event handler of the promise executor.  `renameOk` is the outcome of
the `storageRepository.rename` promise.  Mirrors lines 122–170 of the
service: `error` handlers reject; the producer's `exit` handler records the
code and rejects when it is not `0`; the compressor's `exit` handler rejects
on a nonzero code, returns without settling when `pgdump.exitCode !== 0`,
and otherwise performs the rename, resolving on success and rejecting on
failure. -/
def step (renameOk : Bool) (s : RunState) (e : RunEvent) : RunState :=
  match e with
  | .pgError => settle false s
  | .gzError => settle false s
  | .pgExit code =>
      let s' := { s with pgExitCode := code }
      if code ≠ some 0 then settle false s' else s'
  | .gzExit code =>
      if code ≠ some 0 then settle false s
      else if s.pgExitCode ≠ some 0 then s
      else if renameOk then settle true { s with renamed := true }
      else settle false s

/-- The promise state after the events of one run have been delivered. -/
def runBackup (renameOk : Bool) (ev : List RunEvent) : RunState :=
  ev.foldl (step renameOk) {}

/-- The value `handleBackupDatabase` returns: `FAILED` from the `catch`
branch when the promise rejects, `SUCCESS` after the promise resolves;
`none` when the promise never settles (the `await` never completes). -/
def runResult (renameOk : Bool) (ev : List RunEvent) : Option JobStatus :=
  match (runBackup renameOk ev).settled with
  | some true => some JobStatus.SUCCESS
  | some false => some JobStatus.FAILED
  | none => none

/-- `handleBackupDatabase` paired with whether `cleanupDatabaseBackups` was
invoked during that call: the `await this.cleanupDatabaseBackups()` sits
after the `try/catch` on the success path only (lines 172–179). -/
def handleBackupDatabase (renameOk : Bool) (ev : List RunEvent) :
    Option JobStatus × Bool :=
  match (runBackup renameOk ev).settled with
  | some true => (some JobStatus.SUCCESS, true)
  | some false => (some JobStatus.FAILED, false)
  | none => (none, false)

/-- The codes of the producer `exit` events of a trace, in order. -/
def pgExitCodes (ev : List RunEvent) : List (Option Int) :=
  ev.filterMap (fun e =>
    match e with
    | .pgExit c => some c
    | _ => none)

/-- JavaScript `s.replace(pat, rep)` with string arguments: replace the
first occurrence of `pat` only. -/
def replaceFirst (pat rep : List Char) : List Char → List Char
  | [] => if pat.isEmpty then rep else []
  | c :: rest =>
      if pat.isPrefixOf (c :: rest) then rep ++ (c :: rest).drop pat.length
      else c :: replaceFirst pat rep rest

/-- `pat` occurs as a contiguous substring of `l`. -/
def containsSub (pat : List Char) : List Char → Bool
  | [] => pat.isEmpty
  | c :: rest => pat.isPrefixOf (c :: rest) || containsSub pat rest

/-- `path.join(backupsFolder, name)` (the folder does not end in a slash). -/
def joinPath (folder name : String) : String := folder ++ "/" ++ name

/-- The `backupFilePath` of a run whose `Date.now()` printed as the digit
string `d`. -/
def backupTmpPath (folder : String) (d : List Char) : String :=
  joinPath folder (mkTmpName d)

/-- The rename destination `backupFilePath.replace('.tmp', '')`. -/
def renameTarget (p : String) : String := String.mk (replaceFirst tmpPat [] p.data)

/-- The intended published path `backupsFolder/immich-db-backup-<d>.sql.gz`. -/
def backupFinalPath (folder : String) (d : List Char) : String :=
  joinPath folder (mkFinalName d)

/-- The artifacts of one run that exist after the run: the write stream
creates the temporary file up front; on a completed rename only the rename
target remains, otherwise only the temporary file. -/
def runFiles (renameOk : Bool) (folder : String) (d : List Char)
    (ev : List RunEvent) : List String :=
  if (runBackup renameOk ev).renamed then [renameTarget (backupTmpPath folder d)]
  else [backupTmpPath folder d]

/-- The worker roles (modelled from the spec §4.2: `onBootstrap` "runs only
on a designated worker role"; the `ImmichWorker` enum is in src/enum.ts,
not part of the excerpt). -/
inductive ImmichWorker
  | API
  | MICROSERVICES
deriving DecidableEq

/-- The `backup.database` slice of the configuration that the scheduler
consumes. -/
structure CronConfig where
  cronExpression : String
  enabled : Bool

/-- The scheduler-relevant state of one `BackupService` instance:
the private `backupLock` field (initially `false`) and the cron
registration named `backupDatabase` (expression and enabled flag), if any. -/
structure SchedulerState where
  backupLock : Bool := false
  cronJob : Option (String × Bool) := none

/-- `onBootstrap(workerType)`: only the API worker proceeds; it stores the
result of `tryLock(DatabaseLock.BackupDatabase)` in `backupLock` and, only
when the lock was obtained, registers the `backupDatabase` cron job. -/
def onBootstrap (workerType : ImmichWorker) (lockResult : Bool)
    (database : CronConfig) (s : SchedulerState) : SchedulerState :=
  if workerType ≠ ImmichWorker.API then s
  else
    let s' := { s with backupLock := lockResult }
    if s'.backupLock then
      { s' with cronJob := some (database.cronExpression, database.enabled) }
    else s'

/-- `onConfigUpdate({ newConfig, oldConfig })`: ignored when there is no
previous config or this instance does not hold the lock; otherwise the cron
registration is updated in place (`updateCronJob`, modelled from the spec
§4.2 as replacing the expression and enabled flag of the registration). -/
def onConfigUpdate (hasOldConfig : Bool) (database : CronConfig)
    (s : SchedulerState) : SchedulerState :=
  if !hasOldConfig || !s.backupLock then s
  else { s with cronJob := some (database.cronExpression, database.enabled) }

/-- The database connection configuration read from
`configRepository.getEnv().database.config`. -/
structure DatabaseConnectionConfig where
  connectionType : String
  url : String
  username : String
  host : String
  password : String

/-- `config.connectionType === 'url'`. -/
def isUrlConnection (c : DatabaseConnectionConfig) : Bool :=
  c.connectionType == "url"

/-- `databaseParams`: `[config.url]` in URL-mode, `['-U', username, '-h',
host]` in host-mode. -/
def databaseParams (c : DatabaseConnectionConfig) : List String :=
  if isUrlConnection c then [c.url] else ["-U", c.username, "-h", c.host]

/-- The full argv of the spawned producer:
`spawn('pg_dumpall', [...databaseParams, '--clean', '--if-exists'], ...)`. -/
def pgdumpArgs (c : DatabaseConnectionConfig) : List String :=
  databaseParams c ++ ["--clean", "--if-exists"]

/-- The `PGPASSWORD` entry of the producer's environment:
`isUrlConnection ? undefined : config.password` (an `undefined` value means
the variable is not set in the child environment). -/
def pgdumpEnvPGPASSWORD (c : DatabaseConnectionConfig) : Option String :=
  if isUrlConnection c then none else some c.password

/-- The argv of the compressor: `spawn('gzip', [], ...)`. -/
def gzipArgs : List String := []

/-! ### Order properties of the JavaScript string comparator -/

theorem charListLt_irrefl (l : List Char) : charListLt l l = false := by
  induction l with
  | nil => rfl
  | cons c cs ih => simp [charListLt, ih]

theorem charListLt_asymm {a b : List Char} (h : charListLt a b = true) :
    charListLt b a = false := by
  induction a generalizing b with
  | nil =>
    cases b with
    | nil => simp [charListLt] at h
    | cons y ys => simp [charListLt]
  | cons x xs ih =>
    cases b with
    | nil => simp [charListLt] at h
    | cons y ys =>
      simp only [charListLt, Bool.or_eq_true, Bool.and_eq_true, decide_eq_true_eq] at h ⊢
      rcases h with h | ⟨he, h⟩
      · simp [Nat.not_lt.mpr (Nat.le_of_lt h), Nat.ne_of_gt h]
      · simp [he, Nat.lt_irrefl, ih h]

theorem charListLt_trans {a b c : List Char} (hab : charListLt a b = true)
    (hbc : charListLt b c = true) : charListLt a c = true := by
  induction a generalizing b c with
  | nil =>
    cases c with
    | nil =>
      cases b with
      | nil => exact hab
      | cons y ys => simp [charListLt] at hbc
    | cons z zs => simp [charListLt]
  | cons x xs ih =>
    cases b with
    | nil => simp [charListLt] at hab
    | cons y ys =>
      cases c with
      | nil => simp [charListLt] at hbc
      | cons z zs =>
        simp only [charListLt, Bool.or_eq_true, Bool.and_eq_true,
          decide_eq_true_eq] at hab hbc ⊢
        rcases hab with hab | ⟨hab, hab'⟩ <;> rcases hbc with hbc | ⟨hbc, hbc'⟩
        · exact Or.inl (Nat.lt_trans hab hbc)
        · exact Or.inl (hbc ▸ hab)
        · exact Or.inl (hab ▸ hbc)
        · exact Or.inr ⟨hab.trans hbc, ih hab' hbc'⟩

theorem charListLt_connex {a b : List Char} (h₁ : charListLt a b = false)
    (h₂ : charListLt b a = false) : a = b := by
  induction a generalizing b with
  | nil =>
    cases b with
    | nil => rfl
    | cons y ys => simp [charListLt] at h₁
  | cons x xs ih =>
    cases b with
    | nil => simp [charListLt] at h₂
    | cons y ys =>
      simp only [charListLt, Bool.or_eq_false_iff, Bool.and_eq_false_iff,
        decide_eq_false_iff_not, Nat.not_lt] at h₁ h₂
      have hxy : x.toNat = y.toNat := Nat.le_antisymm h₂.1 h₁.1
      rcases h₁.2 with h | h
      · exact absurd hxy h
      · rcases h₂.2 with h' | h'
        · exact absurd hxy.symm h'
        · have : x = y := Char.ext (UInt32.toNat.inj hxy)
          rw [this, ih h h']

instance : IsTotal String strLe := by
  constructor
  intro a b
  unfold strLe
  cases h : charListLt b.data a.data
  · exact Or.inl rfl
  · exact Or.inr (charListLt_asymm h)

instance : IsTrans String strLe := by
  constructor
  intro a b c hab hbc
  unfold strLe at hab hbc ⊢
  cases hca : charListLt c.data a.data
  · rfl
  · exfalso
    cases hbc' : charListLt b.data c.data
    · have hcb : c.data = b.data := charListLt_connex hbc hbc'
      rw [hcb] at hca
      simp [hca] at hab
    · have : charListLt b.data a.data = true := charListLt_trans hbc' hca
      simp [this] at hab

/-! ### Digit strings: lexicographic order agrees with numeric order at
equal length -/

theorem digitsVal_lt_pow {l : List Char} (h : ∀ c ∈ l, isDig c = true) :
    digitsVal l < 10 ^ l.length := by
  induction l with
  | nil => simp [digitsVal]
  | cons c cs ih =>
    have hc : isDig c = true := h c (List.mem_cons_self ..)
    have hcs : ∀ x ∈ cs, isDig x = true := fun x hx => h x (List.mem_cons_of_mem _ hx)
    have h9 : c.toNat - 48 ≤ 9 := by
      simp only [isDig, Bool.and_eq_true, decide_eq_true_eq] at hc
      omega
    have := ih hcs
    calc (c.toNat - 48) * 10 ^ cs.length + digitsVal cs
        < (c.toNat - 48) * 10 ^ cs.length + 10 ^ cs.length := by omega
      _ = (c.toNat - 48 + 1) * 10 ^ cs.length := by ring
      _ ≤ 10 * 10 ^ cs.length := by
          exact Nat.mul_le_mul_right _ (by omega)
      _ = 10 ^ (c :: cs).length := by
          simp [List.length_cons, pow_succ]
          ring

theorem charListLt_append_same (p a b : List Char) :
    charListLt (p ++ a) (p ++ b) = charListLt a b := by
  induction p with
  | nil => rfl
  | cons c cs ih => simp [charListLt, ih]

theorem digitsVal_lt_of_head {a b : Char} {as bs : List Char}
    (ha : ∀ c ∈ a :: as, isDig c = true) (hlen : as.length = bs.length)
    (hab : a.toNat < b.toNat) :
    digitsVal (a :: as) < digitsVal (b :: bs) := by
  have hdig : ∀ c ∈ as, isDig c = true := fun c hc => ha c (List.mem_cons_of_mem _ hc)
  have h1 : digitsVal as < 10 ^ as.length := digitsVal_lt_pow hdig
  have ha' : isDig a = true := ha a (List.mem_cons_self ..)
  have h48 : 48 ≤ a.toNat := by
    simp only [isDig, Bool.and_eq_true, decide_eq_true_eq] at ha'
    exact ha'.1
  show (a.toNat - 48) * 10 ^ as.length + digitsVal as
      < (b.toNat - 48) * 10 ^ bs.length + digitsVal bs
  rw [← hlen]
  have hstep : a.toNat - 48 + 1 ≤ b.toNat - 48 := by omega
  calc (a.toNat - 48) * 10 ^ as.length + digitsVal as
      < (a.toNat - 48) * 10 ^ as.length + 10 ^ as.length := by omega
    _ = (a.toNat - 48 + 1) * 10 ^ as.length := by ring
    _ ≤ (b.toNat - 48) * 10 ^ as.length := Nat.mul_le_mul_right _ hstep
    _ ≤ (b.toNat - 48) * 10 ^ as.length + digitsVal bs := Nat.le_add_right ..

theorem charListLt_digits_iff {a b : List Char} (s : List Char)
    (ha : ∀ c ∈ a, isDig c = true) (hb : ∀ c ∈ b, isDig c = true)
    (hlen : a.length = b.length) :
    (charListLt (a ++ s) (b ++ s) = true ↔ digitsVal a < digitsVal b) := by
  induction a generalizing b with
  | nil =>
    cases b with
    | nil => simp [charListLt_irrefl, digitsVal]
    | cons y ys => simp at hlen
  | cons x xs ih =>
    cases b with
    | nil => simp at hlen
    | cons y ys =>
      have hxs : ∀ c ∈ xs, isDig c = true := fun c hc => ha c (List.mem_cons_of_mem _ hc)
      have hys : ∀ c ∈ ys, isDig c = true := fun c hc => hb c (List.mem_cons_of_mem _ hc)
      have hlen' : xs.length = ys.length := by simpa using hlen
      constructor
      · intro h
        simp only [List.cons_append, charListLt, Bool.or_eq_true, Bool.and_eq_true,
          decide_eq_true_eq] at h
        rcases h with h | ⟨he, h⟩
        · exact digitsVal_lt_of_head ha hlen' h
        · have hrec := (ih hxs hys hlen').mp h
          have hx : x = y := Char.ext (UInt32.toNat.inj he)
          subst hx
          show (x.toNat - 48) * 10 ^ xs.length + digitsVal xs
              < (x.toNat - 48) * 10 ^ ys.length + digitsVal ys
          rw [← hlen']
          omega
      · intro h
        simp only [List.cons_append, charListLt, Bool.or_eq_true, Bool.and_eq_true,
          decide_eq_true_eq]
        rcases Nat.lt_trichotomy x.toNat y.toNat with hxy | hxy | hxy
        · exact Or.inl hxy
        · refine Or.inr ⟨hxy, (ih hxs hys hlen').mpr ?_⟩
          have hx : x = y := Char.ext (UInt32.toNat.inj hxy)
          subst hx
          revert h
          show (x.toNat - 48) * 10 ^ xs.length + digitsVal xs
              < (x.toNat - 48) * 10 ^ ys.length + digitsVal ys →
              digitsVal xs < digitsVal ys
          rw [← hlen']
          omega
        · exfalso
          have := digitsVal_lt_of_head hb hlen'.symm hxy
          omega

theorem mkFinalName_data (d : List Char) :
    (mkFinalName d).data = backupLit ++ (d ++ finalSuffix) := by
  simp [mkFinalName]

theorem strLtB_mkFinalName_iff {d₁ d₂ : List Char}
    (h₁ : ∀ c ∈ d₁, isDig c = true) (h₂ : ∀ c ∈ d₂, isDig c = true)
    (hlen : d₁.length = d₂.length) :
    (strLtB (mkFinalName d₁) (mkFinalName d₂) = true ↔
      digitsVal d₁ < digitsVal d₂) := by
  unfold strLtB
  rw [mkFinalName_data, mkFinalName_data, charListLt_append_same]
  exact charListLt_digits_iff finalSuffix h₁ h₂ hlen

theorem strLe_mkFinalName_iff {d₁ d₂ : List Char}
    (h₁ : ∀ c ∈ d₁, isDig c = true) (h₂ : ∀ c ∈ d₂, isDig c = true)
    (hlen : d₁.length = d₂.length) :
    (strLe (mkFinalName d₁) (mkFinalName d₂) ↔ digitsVal d₁ ≤ digitsVal d₂) := by
  unfold strLe
  rw [mkFinalName_data, mkFinalName_data, charListLt_append_same]
  have := charListLt_digits_iff finalSuffix h₂ h₁ hlen.symm
  constructor
  · intro h
    by_contra hc
    have : charListLt (d₂ ++ finalSuffix) (d₁ ++ finalSuffix) = true :=
      this.mpr (by omega)
    simp [this] at h
  · intro h
    cases hlt : charListLt (d₂ ++ finalSuffix) (d₁ ++ finalSuffix)
    · rfl
    · have := this.mp hlt
      omega

/-! ### Characterisation of the artifact-name matchers -/

theorem isPrefixOf_iff_exists {l₁ l₂ : List Char} :
    l₁.isPrefixOf l₂ = true ↔ ∃ t, l₂ = l₁ ++ t := by
  induction l₁ generalizing l₂ with
  | nil => simp [List.isPrefixOf]
  | cons c cs ih =>
    cases l₂ with
    | nil =>
      simp only [List.isPrefixOf, List.cons_append]
      constructor
      · intro h
        exact absurd h (by simp)
      · rintro ⟨t, ht⟩
        simp at ht
    | cons d ds =>
      simp only [List.isPrefixOf, Bool.and_eq_true, beq_iff_eq, ih, List.cons_append]
      constructor
      · rintro ⟨rfl, t, rfl⟩
        exact ⟨t, rfl⟩
      · rintro ⟨t, ht⟩
        injection ht with h1 h2
        exact ⟨h1.symm, t, h2⟩

theorem takeWhile_append_digits {d s : List Char} (hd : ∀ c ∈ d, isDig c = true)
    (hs : s.takeWhile isDig = []) :
    (d ++ s).takeWhile isDig = d ∧ (d ++ s).dropWhile isDig = s := by
  induction d with
  | nil =>
    refine ⟨hs, ?_⟩
    have := List.takeWhile_append_dropWhile isDig s
    rw [hs] at this
    simpa using this
  | cons c cs ih =>
    have hc : isDig c = true := hd c (List.mem_cons_self ..)
    have hcs : ∀ x ∈ cs, isDig x = true := fun x hx => hd x (List.mem_cons_of_mem _ hx)
    obtain ⟨h1, h2⟩ := ih hcs
    constructor
    · simp [List.takeWhile_cons, hc, h1]
    · simp [List.dropWhile_cons, hc, h2]

theorem artifactMatchHere_decomp {suffix l : List Char}
    (h : artifactMatchHere suffix l = true) :
    ∃ d, l = backupLit ++ d ++ suffix ∧ d ≠ [] ∧ ∀ c ∈ d, isDig c = true := by
  unfold artifactMatchHere at h
  simp only [Bool.and_eq_true, Bool.not_eq_true', decide_eq_true_eq] at h
  obtain ⟨h1, h2, h3⟩ := h
  obtain ⟨t, rfl⟩ := isPrefixOf_iff_exists.mp h1
  rw [List.drop_left] at h2 h3
  refine ⟨t.takeWhile isDig, ?_, ?_, ?_⟩
  · conv_lhs => rw [← List.takeWhile_append_dropWhile isDig t]
    rw [h3, List.append_assoc]
  · intro hnil
    rw [hnil] at h2
    simp at h2
  · intro c hc
    exact List.mem_takeWhile_imp hc

theorem artifactMatchHere_mk {suffix d : List Char} (hne : d ≠ [])
    (hd : ∀ c ∈ d, isDig c = true) (hs : suffix.takeWhile isDig = []) :
    artifactMatchHere suffix (backupLit ++ d ++ suffix) = true := by
  obtain ⟨h1, h2⟩ := takeWhile_append_digits hd hs
  unfold artifactMatchHere
  rw [List.append_assoc, List.drop_left]
  simp only [Bool.and_eq_true, Bool.not_eq_true', decide_eq_true_eq]
  refine ⟨isPrefixOf_iff_exists.mpr ⟨d ++ suffix, rfl⟩, ?_, h2⟩
  rw [h1]
  simpa using hne

theorem artifactMatch_of_here {suffix l : List Char}
    (h : artifactMatchHere suffix l = true) (hne : l ≠ []) :
    artifactMatch suffix l = true := by
  cases l with
  | nil => exact absurd rfl hne
  | cons c rest => simp [artifactMatch, h]

theorem artifactMatch_decomp {suffix l : List Char}
    (h : artifactMatch suffix l = true) :
    ∃ a d, l = a ++ backupLit ++ d ++ suffix ∧ d ≠ [] ∧ ∀ c ∈ d, isDig c = true := by
  induction l with
  | nil => simp [artifactMatch] at h
  | cons c rest ih =>
    simp only [artifactMatch, Bool.or_eq_true] at h
    rcases h with h | h
    · obtain ⟨d, h1, h2, h3⟩ := artifactMatchHere_decomp h
      exact ⟨[], d, by simpa using h1, h2, h3⟩
    · obtain ⟨a, d, h1, h2, h3⟩ := ih h
      exact ⟨c :: a, d, by simp [h1], h2, h3⟩

theorem artifactMatch_getLast {suffix l : List Char} {c : Char}
    (h : artifactMatch suffix l = true) (hc : suffix.getLast? = some c) :
    l.getLast? = some c := by
  obtain ⟨a, d, rfl, -, -⟩ := artifactMatch_decomp h
  rw [List.getLast?_append, hc]
  rfl

theorem not_failed_of_backup {f : String} (h : isBackupFile f = true) :
    isFailedBackupFile f = false := by
  cases hf : isFailedBackupFile f
  · rfl
  · exfalso
    have h1 : f.data.getLast? = some 'z' :=
      artifactMatch_getLast h (by decide)
    have h2 : f.data.getLast? = some 'p' :=
      artifactMatch_getLast hf (by decide)
    rw [h1] at h2
    exact absurd (Option.some.inj h2) (by decide)

theorem not_backup_of_failed {f : String} (h : isFailedBackupFile f = true) :
    isBackupFile f = false := by
  cases hb : isBackupFile f
  · rfl
  · rw [not_failed_of_backup hb] at h
    exact absurd h (by decide)

theorem mkName_data_ne_nil (d s : List Char) : backupLit ++ d ++ s ≠ [] := by
  intro h
  have := congrArg List.length h
  simp [backupLit] at this

theorem wellFormedFinalName_mk {d : List Char} (hne : d ≠ [])
    (hd : ∀ c ∈ d, isDig c = true) :
    wellFormedFinalName (mkFinalName d) = true :=
  artifactMatchHere_mk hne hd (by decide)

theorem isBackupFile_mkFinalName {d : List Char} (hne : d ≠ [])
    (hd : ∀ c ∈ d, isDig c = true) :
    isBackupFile (mkFinalName d) = true :=
  artifactMatch_of_here (artifactMatchHere_mk hne hd (by decide))
    (mkName_data_ne_nil d finalSuffix)

theorem isFailedBackupFile_mkTmpName {d : List Char} (hne : d ≠ [])
    (hd : ∀ c ∈ d, isDig c = true) :
    isFailedBackupFile (mkTmpName d) = true :=
  artifactMatch_of_here (artifactMatchHere_mk hne hd (by decide))
    (mkName_data_ne_nil d tmpSuffix)

theorem mkFinalName_inj {d₁ d₂ : List Char} (h : mkFinalName d₁ = mkFinalName d₂) :
    d₁ = d₂ := by
  have : (mkFinalName d₁).data = (mkFinalName d₂).data := by rw [h]
  rw [mkFinalName_data, mkFinalName_data] at this
  exact List.append_cancel_right (List.append_cancel_left this)

/-! ### Invariants of the pipeline state machine -/

theorem step_pgError (renameOk : Bool) (s : RunState) :
    step renameOk s RunEvent.pgError = settle false s := rfl

theorem step_gzError (renameOk : Bool) (s : RunState) :
    step renameOk s RunEvent.gzError = settle false s := rfl

theorem step_pgExit (renameOk : Bool) (s : RunState) (c : Option Int) :
    step renameOk s (RunEvent.pgExit c) =
      (if c ≠ some 0 then settle false { s with pgExitCode := c }
       else { s with pgExitCode := c }) := rfl

theorem step_gzExit (renameOk : Bool) (s : RunState) (c : Option Int) :
    step renameOk s (RunEvent.gzExit c) =
      (if c ≠ some 0 then settle false s
       else if s.pgExitCode ≠ some 0 then s
       else if renameOk then settle true { s with renamed := true }
       else settle false s) := rfl

theorem settle_pgExitCode (b : Bool) (s : RunState) :
    (settle b s).pgExitCode = s.pgExitCode := by
  unfold settle
  cases s.settled <;> rfl

theorem settle_renamed (b : Bool) (s : RunState) :
    (settle b s).renamed = s.renamed := by
  unfold settle
  cases s.settled <;> rfl

theorem settle_settled (b : Bool) (s : RunState) :
    (settle b s).settled = s.settled ∨
      (s.settled = none ∧ (settle b s).settled = some b) := by
  unfold settle
  cases h : s.settled with
  | none => exact Or.inr ⟨rfl, rfl⟩
  | some v => exact Or.inl h

theorem settle_false_settled {s : RunState}
    (h : s.settled = none ∨ s.settled = some false) :
    (settle false s).settled = some false := by
  unfold settle
  rcases h with h | h
  · rw [h]
  · rw [h]
    exact h

theorem step_no_pg_zero (renameOk : Bool) (s : RunState) (e : RunEvent)
    (hpg : s.pgExitCode ≠ some 0)
    (he : ∀ c, e = RunEvent.pgExit c → c ≠ some 0) :
    (step renameOk s e).pgExitCode ≠ some 0 ∧
    (step renameOk s e).renamed = s.renamed ∧
    ((step renameOk s e).settled = s.settled ∨
      (s.settled = none ∧ (step renameOk s e).settled = some false)) := by
  cases e with
  | pgError =>
    rw [step_pgError]
    exact ⟨by rw [settle_pgExitCode]; exact hpg, settle_renamed .., settle_settled ..⟩
  | gzError =>
    rw [step_gzError]
    exact ⟨by rw [settle_pgExitCode]; exact hpg, settle_renamed .., settle_settled ..⟩
  | pgExit c =>
    have hc : c ≠ some 0 := he c rfl
    rw [step_pgExit, if_pos hc]
    exact ⟨by rw [settle_pgExitCode]; exact hc, settle_renamed .., settle_settled ..⟩
  | gzExit c =>
    rw [step_gzExit]
    by_cases hc : c = some 0
    · subst hc
      rw [if_neg (by simp), if_pos hpg]
      exact ⟨hpg, rfl, Or.inl rfl⟩
    · rw [if_pos hc]
      exact ⟨by rw [settle_pgExitCode]; exact hpg, settle_renamed .., settle_settled ..⟩

theorem foldl_no_pg_zero (renameOk : Bool) (ev : List RunEvent) (s : RunState)
    (hev : ∀ c, RunEvent.pgExit c ∈ ev → c ≠ some 0)
    (hpg : s.pgExitCode ≠ some 0) :
    (ev.foldl (step renameOk) s).pgExitCode ≠ some 0 ∧
    (ev.foldl (step renameOk) s).renamed = s.renamed ∧
    ((ev.foldl (step renameOk) s).settled = s.settled ∨
      (s.settled = none ∧ (ev.foldl (step renameOk) s).settled = some false)) := by
  induction ev generalizing s with
  | nil => exact ⟨hpg, rfl, Or.inl rfl⟩
  | cons e rest ih =>
    have he : ∀ c, e = RunEvent.pgExit c → c ≠ some 0 := by
      intro c hc
      exact hev c (hc ▸ List.mem_cons_self ..)
    obtain ⟨h1, h2, h3⟩ := step_no_pg_zero renameOk s e hpg he
    have hev' : ∀ c, RunEvent.pgExit c ∈ rest → c ≠ some 0 := by
      intro c hc
      exact hev c (List.mem_cons_of_mem _ hc)
    obtain ⟨g1, g2, g3⟩ := ih (step renameOk s e) hev' h1
    rw [List.foldl_cons]
    refine ⟨g1, g2.trans h2, ?_⟩
    rcases g3 with g3 | ⟨g3, g3'⟩
    · rw [g3]
      exact h3
    · rcases h3 with h3 | ⟨h3, h3'⟩
      · exact Or.inr ⟨h3 ▸ g3, g3'⟩
      · rw [g3] at h3'
        cases h3'

theorem pgExitCodes_nil_no_mem {l : List RunEvent} (h : pgExitCodes l = [])
    (c : Option Int) : RunEvent.pgExit c ∉ l := by
  intro hc
  have : c ∈ pgExitCodes l := List.mem_filterMap.mpr ⟨_, hc, rfl⟩
  rw [h] at this
  exact absurd this (List.not_mem_nil c)

theorem pgExitCodes_singleton {ev : List RunEvent} {x : Option Int}
    (h : pgExitCodes ev = [x]) :
    ∃ l₁ l₂, ev = l₁ ++ RunEvent.pgExit x :: l₂ ∧
      pgExitCodes l₁ = [] ∧ pgExitCodes l₂ = [] := by
  induction ev with
  | nil => simp [pgExitCodes] at h
  | cons e rest ih =>
    cases e with
    | pgExit c =>
      have hc : c = x ∧ pgExitCodes rest = [] := by
        simpa [pgExitCodes, List.filterMap_cons] using h
      refine ⟨[], rest, ?_, rfl, hc.2⟩
      rw [hc.1]
      rfl
    | pgError =>
      obtain ⟨l₁, l₂, h1, h2, h3⟩ := ih (by simpa [pgExitCodes, List.filterMap_cons] using h)
      exact ⟨RunEvent.pgError :: l₁, l₂, by rw [h1]; rfl,
        by simpa [pgExitCodes, List.filterMap_cons] using h2, h3⟩
    | gzError =>
      obtain ⟨l₁, l₂, h1, h2, h3⟩ := ih (by simpa [pgExitCodes, List.filterMap_cons] using h)
      exact ⟨RunEvent.gzError :: l₁, l₂, by rw [h1]; rfl,
        by simpa [pgExitCodes, List.filterMap_cons] using h2, h3⟩
    | gzExit c =>
      obtain ⟨l₁, l₂, h1, h2, h3⟩ := ih (by simpa [pgExitCodes, List.filterMap_cons] using h)
      exact ⟨RunEvent.gzExit c :: l₁, l₂, by rw [h1]; rfl,
        by simpa [pgExitCodes, List.filterMap_cons] using h2, h3⟩

theorem settle_false_preserves (s : RunState)
    (h : s.settled = some true → s.renamed = true) :
    (settle false s).settled = some true → (settle false s).renamed = true := by
  intro hb
  rw [settle_renamed]
  apply h
  rcases settle_settled false s with hs | ⟨hs, hs'⟩
  · rw [← hs]
    exact hb
  · rw [hs'] at hb
    cases hb

theorem step_preserves_success_renamed (renameOk : Bool) (s : RunState)
    (e : RunEvent) (h : s.settled = some true → s.renamed = true) :
    (step renameOk s e).settled = some true →
      (step renameOk s e).renamed = true := by
  cases e with
  | pgError =>
    rw [step_pgError]
    exact settle_false_preserves s h
  | gzError =>
    rw [step_gzError]
    exact settle_false_preserves s h
  | pgExit c =>
    rw [step_pgExit]
    split
    · exact settle_false_preserves { s with pgExitCode := c } h
    · exact h
  | gzExit c =>
    rw [step_gzExit]
    split
    · exact settle_false_preserves s h
    · split
      · exact h
      · split
        · intro hb
          rw [settle_renamed]
        · exact settle_false_preserves s h

theorem success_implies_renamed (renameOk : Bool) (ev : List RunEvent) :
    runResult renameOk ev = some JobStatus.SUCCESS →
      (runBackup renameOk ev).renamed = true := by
  have main : ∀ s : RunState, (s.settled = some true → s.renamed = true) →
      (ev.foldl (step renameOk) s).settled = some true →
      (ev.foldl (step renameOk) s).renamed = true := by
    induction ev with
    | nil => exact fun s h => h
    | cons e rest ih =>
      intro s h
      rw [List.foldl_cons]
      exact ih (step renameOk s e) (step_preserves_success_renamed renameOk s e h)
  intro hres
  apply main {} (by intro h; cases h)
  unfold runResult at hres
  revert hres
  cases hs : (runBackup renameOk ev).settled with
  | none => intro hres; cases hres
  | some b =>
    cases b
    · intro hres
      cases hres
    · intro _
      exact hs

theorem producer_failure (renameOk : Bool) (ev : List RunEvent) (c : Int)
    (hc : c ≠ 0) (hpg : pgExitCodes ev = [some c]) :
    runResult renameOk ev = some JobStatus.FAILED ∧
    (runBackup renameOk ev).renamed = false := by
  obtain ⟨l₁, l₂, rfl, h₁, h₂⟩ := pgExitCodes_singleton hpg
  have hev₁ : ∀ c', RunEvent.pgExit c' ∈ l₁ → c' ≠ some 0 := by
    intro c' hc'
    exact absurd hc' (pgExitCodes_nil_no_mem h₁ c')
  have hev₂ : ∀ c', RunEvent.pgExit c' ∈ l₂ → c' ≠ some 0 := by
    intro c' hc'
    exact absurd hc' (pgExitCodes_nil_no_mem h₂ c')
  have hinit : (({} : RunState)).pgExitCode ≠ some 0 := by
    intro h
    cases h
  obtain ⟨a1, a2, a3⟩ := foldl_no_pg_zero renameOk l₁ {} hev₁ hinit
  set s₁ := l₁.foldl (step renameOk) {} with hs₁
  have hcc : (some c : Option Int) ≠ some 0 := by simpa using hc
  have hstep : step renameOk s₁ (RunEvent.pgExit (some c)) =
      settle false { s₁ with pgExitCode := some c } := by
    rw [step_pgExit, if_pos hcc]
  have a3' : s₁.settled = none ∨ s₁.settled = some false := by
    rcases a3 with a3 | ⟨-, a3⟩
    · exact Or.inl a3
    · exact Or.inr a3
  have hmid1 : (step renameOk s₁ (RunEvent.pgExit (some c))).settled = some false := by
    rw [hstep]
    apply settle_false_settled
    exact a3'
  have hmid2 : (step renameOk s₁ (RunEvent.pgExit (some c))).renamed = false := by
    rw [hstep, settle_renamed]
    exact a2
  have hmid3 : (step renameOk s₁ (RunEvent.pgExit (some c))).pgExitCode ≠ some 0 := by
    rw [hstep, settle_pgExitCode]
    exact hcc
  obtain ⟨b1, b2, b3⟩ :=
    foldl_no_pg_zero renameOk l₂ (step renameOk s₁ (RunEvent.pgExit (some c))) hev₂ hmid3
  have bset : (l₂.foldl (step renameOk)
      (step renameOk s₁ (RunEvent.pgExit (some c)))).settled = some false := by
    rcases b3 with b3 | ⟨b3, -⟩
    · rw [b3]
      exact hmid1
    · rw [hmid1] at b3
      cases b3
  have hrun : runBackup renameOk (l₁ ++ RunEvent.pgExit (some c) :: l₂) =
      l₂.foldl (step renameOk) (step renameOk s₁ (RunEvent.pgExit (some c))) := by
    unfold runBackup
    rw [List.foldl_append, List.foldl_cons]
  constructor
  · unfold runResult
    rw [hrun, bset]
  · rw [hrun, b2, hmid2]

/-! ### The rename destination: `replace('.tmp', '')` strips exactly the
final suffix when the backups folder itself contains no `.tmp` -/

theorem replaceFirst_append (pat rep : List Char) (x y : List Char)
    (h : ∀ x₁ x₂, x = x₁ ++ x₂ → x₂ ≠ [] → pat.isPrefixOf (x₂ ++ y) = false) :
    replaceFirst pat rep (x ++ y) = x ++ replaceFirst pat rep y := by
  induction x with
  | nil => simp
  | cons c cs ih =>
    have hpre : pat.isPrefixOf ((c :: cs) ++ y) = false := h [] (c :: cs) rfl (by simp)
    have h' : ∀ x₁ x₂, cs = x₁ ++ x₂ → x₂ ≠ [] → pat.isPrefixOf (x₂ ++ y) = false := by
      intro x₁ x₂ hx hne
      refine h (c :: x₁) x₂ ?_ hne
      rw [hx]
      rfl
    show replaceFirst pat rep (c :: (cs ++ y)) = c :: (cs ++ replaceFirst pat rep y)
    rw [replaceFirst, if_neg (by simp only [List.cons_append] at hpre; simp [hpre])]
    rw [ih h']

theorem isPrefixOf_of_le {pat t z : List Char}
    (h : pat.isPrefixOf (t ++ z) = true) (hle : pat.length ≤ t.length) :
    pat.isPrefixOf t = true := by
  induction pat generalizing t z with
  | nil => cases t <;> rfl
  | cons p ps ih =>
    cases t with
    | nil => simp at hle
    | cons a t' =>
      show (p == a && ps.isPrefixOf t') = true
      have h' : (p == a && ps.isPrefixOf (t' ++ z)) = true := h
      simp only [Bool.and_eq_true] at h' ⊢
      exact ⟨h'.1, ih h'.2 (by simpa using hle)⟩

theorem containsSub_of_split (x₁ : List Char) {pat t : List Char}
    (h : pat.isPrefixOf t = true) :
    containsSub pat (x₁ ++ t) = true := by
  induction x₁ with
  | nil =>
    cases t with
    | nil =>
      obtain ⟨r, hr⟩ := isPrefixOf_iff_exists.mp h
      cases pat with
      | nil => rfl
      | cons p ps => simp at hr
    | cons c rest =>
      show (pat.isPrefixOf (c :: rest) || containsSub pat rest) = true
      simp [h]
  | cons c cs ih =>
    show (pat.isPrefixOf (c :: (cs ++ t)) || containsSub pat (cs ++ t)) = true
    simp [ih]

theorem ne_dot_of_isDig {c : Char} (h : isDig c = true) : c ≠ '.' := by
  intro hc
  rw [hc] at h
  exact absurd h (by decide)

theorem tmpPat_not_prefix_head {c : Char} {l : List Char} (hc : c ≠ '.') :
    tmpPat.isPrefixOf (c :: l) = false := by
  show (('.' == c) && List.isPrefixOf ('t' :: 'm' :: 'p' :: []) l) = false
  have : ('.' == c) = false := beq_eq_false_iff_ne.mpr (Ne.symm hc)
  rw [this, Bool.false_and]

theorem tmpPat_not_prefix_two {a : Char} {l : List Char} :
    tmpPat.isPrefixOf (a :: '/' :: l) = false := by
  show (('.' == a) && (('t' == '/') && List.isPrefixOf ('m' :: 'p' :: []) l)) = false
  rw [show ('t' == '/') = false from rfl, Bool.false_and, Bool.and_false]

theorem tmpPat_not_prefix_three {a b : Char} {l : List Char} :
    tmpPat.isPrefixOf (a :: b :: '/' :: l) = false := by
  show (('.' == a) && (('t' == b) && (('m' == '/') &&
      List.isPrefixOf ('p' :: []) l))) = false
  rw [show ('m' == '/') = false from rfl, Bool.false_and, Bool.and_false,
    Bool.and_false]

theorem tmpPat_not_prefix_four {a b c : Char} {l : List Char} :
    tmpPat.isPrefixOf (a :: b :: c :: '/' :: l) = false := by
  show (('.' == a) && (('t' == b) && (('m' == c) &&
      (('p' == '/') && List.isPrefixOf ([] : List Char) l)))) = false
  rw [show ('p' == '/') = false from rfl, Bool.false_and, Bool.and_false,
    Bool.and_false, Bool.and_false]

theorem tmpPat_not_prefix_fsdrop : ∀ n, n < 7 →
    tmpPat.isPrefixOf (finalSuffix.drop n ++ tmpPat) = false := by decide

theorem no_tmp_in_stem (folder : String) (d : List Char)
    (hF : containsSub tmpPat folder.data = false) (hne : d ≠ [])
    (hd : ∀ c ∈ d, isDig c = true) :
    ∀ x₁ x₂, folder.data ++ (('/' :: backupLit) ++ (d ++ finalSuffix)) = x₁ ++ x₂ →
      x₂ ≠ [] → tmpPat.isPrefixOf (x₂ ++ tmpPat) = false := by
  intro x₁ x₂ heq hx₂
  rcases List.append_eq_append_iff.mp heq with ⟨a', ha1, ha2⟩ | ⟨c', hc1, hc2⟩
  · rcases List.append_eq_append_iff.mp ha2 with ⟨t, ht1, ht2⟩ | ⟨t, ht1, ht2⟩
    · rcases List.append_eq_append_iff.mp ht2 with ⟨u, hu1, hu2⟩ | ⟨u, hu1, hu2⟩
      · have hlen : finalSuffix.length = u.length + x₂.length := by
          rw [hu2]
          exact List.length_append ..
        have hfs : finalSuffix.length = 7 := by decide
        have hpos : 0 < x₂.length := List.length_pos.mpr hx₂
        have hx₂eq : x₂ = finalSuffix.drop u.length := by
          rw [hu2, List.drop_left]
        rw [hx₂eq]
        exact tmpPat_not_prefix_fsdrop u.length (by omega)
      · cases u with
        | nil =>
          rw [hu2]
          exact tmpPat_not_prefix_fsdrop 0 (by omega)
        | cons a u' =>
          have ha : a ∈ d := by
            rw [hu1]
            exact List.mem_append_right _ (List.mem_cons_self ..)
          rw [hu2]
          exact tmpPat_not_prefix_head (ne_dot_of_isDig (hd a ha))
    · cases t with
      | nil =>
        rw [ht2]
        cases d with
        | nil => exact absurd rfl hne
        | cons a d' =>
          exact tmpPat_not_prefix_head
            (ne_dot_of_isDig (hd a (List.mem_cons_self ..)))
      | cons a t' =>
        have ha : a ∈ ('/' :: backupLit) := by
          rw [ht1]
          exact List.mem_append_right _ (List.mem_cons_self ..)
        have hno : ('.' : Char) ∉ ('/' :: backupLit) := by decide
        rw [ht2]
        exact tmpPat_not_prefix_head (fun hac => hno (hac ▸ ha))
  · rcases c' with _ | ⟨a, c''⟩
    · rw [hc2]
      exact tmpPat_not_prefix_head (by decide)
    · rcases c'' with _ | ⟨b, c₃⟩
      · rw [hc2]
        exact tmpPat_not_prefix_two
      · rcases c₃ with _ | ⟨c, c₄⟩
        · rw [hc2]
          exact tmpPat_not_prefix_three
        · rcases c₄ with _ | ⟨e, c₅⟩
          · rw [hc2]
            exact tmpPat_not_prefix_four
          · cases hp : tmpPat.isPrefixOf (x₂ ++ tmpPat)
            · rfl
            · exfalso
              have h4 : tmpPat.length ≤ (a :: b :: c :: e :: c₅).length := by
                show 4 ≤ c₅.length + 1 + 1 + 1 + 1
                omega
              have hsh : x₂ ++ tmpPat = (a :: b :: c :: e :: c₅) ++
                  ((('/' :: backupLit) ++ (d ++ finalSuffix)) ++ tmpPat) := by
                rw [hc2]
                simp [List.append_assoc]
              rw [hsh] at hp
              have hpc : tmpPat.isPrefixOf (a :: b :: c :: e :: c₅) = true :=
                isPrefixOf_of_le hp h4
              have hcontra := containsSub_of_split x₁ hpc
              rw [← hc1, hF] at hcontra
              cases hcontra

theorem backupTmpPath_data (folder : String) (d : List Char) :
    (backupTmpPath folder d).data =
      (folder.data ++ (('/' :: backupLit) ++ (d ++ finalSuffix))) ++ tmpPat := by
  have h1 : tmpSuffix = finalSuffix ++ tmpPat := rfl
  simp [backupTmpPath, joinPath, mkTmpName, String.data_append, h1,
    List.append_assoc]

theorem backupFinalPath_data (folder : String) (d : List Char) :
    (backupFinalPath folder d).data =
      folder.data ++ (('/' :: backupLit) ++ (d ++ finalSuffix)) := by
  simp [backupFinalPath, joinPath, mkFinalName, String.data_append,
    List.append_assoc]

theorem renameTarget_eq (folder : String) (d : List Char)
    (hF : containsSub tmpPat folder.data = false) (hne : d ≠ [])
    (hd : ∀ c ∈ d, isDig c = true) :
    renameTarget (backupTmpPath folder d) = backupFinalPath folder d := by
  apply String.ext
  show replaceFirst tmpPat [] (backupTmpPath folder d).data =
    (backupFinalPath folder d).data
  rw [backupTmpPath_data, backupFinalPath_data,
    replaceFirst_append tmpPat [] _ tmpPat (no_tmp_in_stem folder d hF hne hd),
    show replaceFirst tmpPat [] tmpPat = [] by decide, List.append_nil]

theorem backupTmpPath_ne_final (folder : String) (d : List Char) :
    backupTmpPath folder d ≠ backupFinalPath folder d := by
  intro h
  have hdata := congrArg (fun s : String => s.data.length) h
  simp only [backupTmpPath_data, backupFinalPath_data, List.length_append] at hdata
  have : tmpPat.length = 4 := by decide
  omega

/-! ### Structure of one retention sweep -/

theorem length_backupsSorted (files : List String) :
    (backupsSorted files).length =
      (files.filter (fun f => isBackupFile f)).length := by
  unfold backupsSorted
  rw [List.length_reverse]
  exact (List.perm_insertionSort strLe _).length_eq

theorem mem_backupsSorted {x : String} {files : List String} :
    x ∈ backupsSorted files ↔ x ∈ files.filter (fun f => isBackupFile f) := by
  unfold backupsSorted
  rw [List.mem_reverse]
  exact (List.perm_insertionSort strLe _).mem_iff

theorem pairwise_backupsSorted (files : List String) :
    List.Pairwise (fun a b => strLe b a) (backupsSorted files) := by
  unfold backupsSorted
  rw [List.pairwise_reverse]
  exact List.sorted_insertionSort strLe _

theorem retained_ge_deleted {keep : Nat} {files : List String} {x y : String}
    (hx : x ∈ retainedBackups keep files)
    (hy : y ∈ (backupsSorted files).drop keep) :
    strLe y x := by
  have hp := pairwise_backupsSorted files
  rw [← List.take_append_drop keep (backupsSorted files),
    List.pairwise_append] at hp
  exact hp.2.2 x hx y hy

theorem wellFormed_mkFinalName_elim {d : List Char}
    (h : wellFormedFinalName (mkFinalName d) = true) :
    d ≠ [] ∧ ∀ c ∈ d, isDig c = true := by
  obtain ⟨d', hd1, hd2, hd3⟩ := artifactMatchHere_decomp h
  have heq : backupLit ++ (d ++ finalSuffix) = backupLit ++ (d' ++ finalSuffix) := by
    rw [← mkFinalName_data, hd1, List.append_assoc]
  have hdd : d = d' :=
    List.append_cancel_right (List.append_cancel_left heq)
  rw [hdd]
  exact ⟨hd2, hd3⟩

theorem mkFinalName_length_elim {d : List Char} {L : Nat}
    (h : (mkFinalName d).data.length =
      backupLit.length + L + finalSuffix.length) :
    d.length = L := by
  rw [mkFinalName_data] at h
  simp only [List.length_append] at h
  omega

/-! ### The claims -/

/-- C1: in a run whose producer and compressor both exit with status zero
(the producer's exit is observed first, as the compressor only exits after
its input pipe reaches end of file) and whose rename succeeds, the temporary
artifact `immich-db-backup-<ts>.sql.gz.tmp` is renamed to its final name —
`replace('.tmp','')` strips exactly the `.tmp` suffix whenever the backups
folder path contains no `.tmp` — the final name is a well-formed final
artifact name, no temporary artifact of the run remains, and in every run
whatsoever a `SUCCESS` result implies the rename completed first. -/
theorem c1_success_publishes_final_artifact (folder : String) (d : List Char)
    (hF : containsSub tmpPat folder.data = false)
    (hne : d ≠ []) (hd : ∀ c ∈ d, isDig c = true) :
    runResult true [RunEvent.pgExit (some 0), RunEvent.gzExit (some 0)] =
        some JobStatus.SUCCESS ∧
    runFiles true folder d [RunEvent.pgExit (some 0), RunEvent.gzExit (some 0)] =
        [backupFinalPath folder d] ∧
    wellFormedFinalName (mkFinalName d) = true ∧
    backupTmpPath folder d ∉
        runFiles true folder d [RunEvent.pgExit (some 0), RunEvent.gzExit (some 0)] ∧
    (∀ renameOk ev, runResult renameOk ev = some JobStatus.SUCCESS →
        (runBackup renameOk ev).renamed = true) := by
  have hren : (runBackup true
      [RunEvent.pgExit (some 0), RunEvent.gzExit (some 0)]).renamed = true := by
    decide
  have hfiles : runFiles true folder d
      [RunEvent.pgExit (some 0), RunEvent.gzExit (some 0)] =
      [renameTarget (backupTmpPath folder d)] := by
    unfold runFiles
    rw [if_pos hren]
  refine ⟨by decide, ?_, wellFormedFinalName_mk hne hd, ?_, success_implies_renamed⟩
  · rw [hfiles, renameTarget_eq folder d hF hne hd]
  · rw [hfiles, renameTarget_eq folder d hF hne hd]
    intro hmem
    rw [List.mem_singleton] at hmem
    exact backupTmpPath_ne_final folder d hmem

/-- Witness for C1 at the folder `upload/backups` and timestamp
`1700000000000`. -/
theorem c1_success_publishes_final_artifact_app :
    (containsSub tmpPat ("upload/backups" : String).data = false ∧
      "1700000000000".data ≠ ([] : List Char) ∧
      (∀ c ∈ "1700000000000".data, isDig c = true)) ∧
    (runResult true [RunEvent.pgExit (some 0), RunEvent.gzExit (some 0)] =
        some JobStatus.SUCCESS ∧
      runFiles true "upload/backups" "1700000000000".data
          [RunEvent.pgExit (some 0), RunEvent.gzExit (some 0)] =
        [backupFinalPath "upload/backups" "1700000000000".data] ∧
      wellFormedFinalName (mkFinalName "1700000000000".data) = true ∧
      backupTmpPath "upload/backups" "1700000000000".data ∉
        runFiles true "upload/backups" "1700000000000".data
          [RunEvent.pgExit (some 0), RunEvent.gzExit (some 0)] ∧
      (∀ renameOk ev, runResult renameOk ev = some JobStatus.SUCCESS →
          (runBackup renameOk ev).renamed = true)) :=
  ⟨⟨by decide, by decide, by decide⟩,
    c1_success_publishes_final_artifact "upload/backups" "1700000000000".data
      (by decide) (by decide) (by decide)⟩

/-- C2: whenever the producer exits with a nonzero status (its single `exit`
event carries code `c ≠ 0`), the run rejects and `handleBackupDatabase`
returns `FAILED` — regardless of the compressor's events, in particular even
if the compressor later exits with status zero — and the temporary artifact
is never renamed in that run. -/
theorem c2_producer_nonzero_fails (renameOk : Bool) (ev : List RunEvent)
    (c : Int) (hc : c ≠ 0) (hpg : pgExitCodes ev = [some c]) :
    runResult renameOk ev = some JobStatus.FAILED ∧
    (runBackup renameOk ev).renamed = false :=
  producer_failure renameOk ev c hc hpg

/-- Witness for C2: the producer exits 1, then the compressor exits 0. -/
theorem c2_producer_nonzero_fails_app :
    ((1 : Int) ≠ 0 ∧
      pgExitCodes [RunEvent.pgExit (some 1), RunEvent.gzExit (some 0)] =
        [some 1]) ∧
    (runResult true [RunEvent.pgExit (some 1), RunEvent.gzExit (some 0)] =
        some JobStatus.FAILED ∧
      (runBackup true
        [RunEvent.pgExit (some 1), RunEvent.gzExit (some 0)]).renamed = false) :=
  ⟨⟨by decide, by decide⟩,
    c2_producer_nonzero_fails true
      [RunEvent.pgExit (some 1), RunEvent.gzExit (some 0)] 1
      (by decide) (by decide)⟩

/-- C6 counterexample: after a failed attempt (producer exited 1, compressor
exited 0) `handleBackupDatabase` returns `FAILED` from the `catch` branch
without invoking `cleanupDatabaseBackups` — the sweep does not run after a
failed attempt. -/
theorem c6_counterexample :
    handleBackupDatabase true
        [RunEvent.pgExit (some 1), RunEvent.gzExit (some 0)] =
      (some JobStatus.FAILED, false) := by
  decide

/-- C6 amended: the retention sweep runs during a backup attempt exactly
when that attempt succeeds; a failed attempt returns `FAILED` without
sweeping. -/
theorem c6_amended_cleanup_only_after_success (renameOk : Bool)
    (ev : List RunEvent) :
    ((handleBackupDatabase renameOk ev).2 = true ↔
      (handleBackupDatabase renameOk ev).1 = some JobStatus.SUCCESS) := by
  unfold handleBackupDatabase
  cases h : (runBackup renameOk ev).settled with
  | none => simp
  | some b => cases b <;> simp

/-- C7 counterexample: with two deletion candidates and the first `unlink`
rejecting, the sweep loop attempts only the first candidate; the second,
although marked for deletion, is never attempted. -/
theorem c7_counterexample :
    sweepAttempts (fun g => g == "immich-db-backup-1.sql.gz.tmp")
        (toDelete 0
          ["immich-db-backup-1.sql.gz.tmp", "immich-db-backup-2.sql.gz.tmp"]) =
      ["immich-db-backup-1.sql.gz.tmp"] ∧
    "immich-db-backup-2.sql.gz.tmp" ∈
      toDelete 0
        ["immich-db-backup-1.sql.gz.tmp", "immich-db-backup-2.sql.gz.tmp"] := by
  decide

/-- C7 amended: the deletion loop has no error handling — the first failing
`unlink` aborts the sweep: every candidate before it is attempted, the
failing one is attempted, and no candidate after it is attempted. -/
theorem c7_amended_failure_aborts_sweep (fails : String → Bool)
    (pre : List String) (f : String) (rest : List String)
    (hpre : ∀ p ∈ pre, fails p = false) (hf : fails f = true) :
    sweepAttempts fails (pre ++ f :: rest) = pre ++ [f] := by
  induction pre with
  | nil =>
    show sweepAttempts fails (f :: rest) = [f]
    rw [sweepAttempts, if_pos hf]
  | cons p ps ih =>
    have hp : fails p = false := hpre p (List.mem_cons_self ..)
    show sweepAttempts fails (p :: (ps ++ f :: rest)) = p :: (ps ++ [f])
    rw [sweepAttempts, if_neg (by simp [hp]),
      ih (fun q hq => hpre q (List.mem_cons_of_mem _ hq))]

/-- Witness for C7 amended: one healthy candidate, then a failing one, then
one more that is not attempted. -/
theorem c7_amended_failure_aborts_sweep_app :
    ((∀ p ∈ (["a.txt"] : List String), (fun g => g == "b.txt") p = false) ∧
      (fun g => g == "b.txt") "b.txt" = true) ∧
    sweepAttempts (fun g => g == "b.txt") (["a.txt"] ++ "b.txt" :: ["c.txt"]) =
      ["a.txt"] ++ ["b.txt"] :=
  ⟨⟨by decide, by decide⟩,
    c7_amended_failure_aborts_sweep (fun g => g == "b.txt") ["a.txt"] "b.txt"
      ["c.txt"] (by decide) (by decide)⟩

/-- C4: every well-formed temporary artifact name present in the listing is
among the deletion candidates of every sweep, for every keep-count — the
`failedBackups` filter is appended to `toDelete` unconditionally. -/
theorem c4_tmp_artifacts_always_deleted (keep : Nat) (files : List String)
    (d : List Char) (hne : d ≠ []) (hd : ∀ c ∈ d, isDig c = true)
    (hmem : mkTmpName d ∈ files) :
    mkTmpName d ∈ toDelete keep files := by
  apply List.mem_append_right
  exact List.mem_filter.mpr ⟨hmem, isFailedBackupFile_mkTmpName hne hd⟩

/-- Witness for C4 with keep-count 5 and timestamp 123. -/
theorem c4_tmp_artifacts_always_deleted_app :
    ("123".data ≠ ([] : List Char) ∧ (∀ c ∈ "123".data, isDig c = true) ∧
      mkTmpName "123".data ∈ [mkTmpName "123".data]) ∧
    mkTmpName "123".data ∈ toDelete 5 [mkTmpName "123".data] :=
  ⟨⟨by decide, by decide, by decide⟩,
    c4_tmp_artifacts_always_deleted 5 [mkTmpName "123".data] "123".data
      (by decide) (by decide) (by decide)⟩

/-- C5 counterexample: `x-immich-db-backup-1.sql.gz` is not a well-formed
final artifact name and not a well-formed temporary artifact name, yet a
sweep with keep-count 0 deletes it — the filter regexes are anchored only
at the end of the name. -/
theorem c5_counterexample :
    wellFormedFinalName "x-immich-db-backup-1.sql.gz" = false ∧
    wellFormedTmpName "x-immich-db-backup-1.sql.gz" = false ∧
    "x-immich-db-backup-1.sql.gz" ∈
      toDelete 0 ["x-immich-db-backup-1.sql.gz"] := by
  decide

/-- C5 amended: a sweep only ever deletes files of the listing whose names
match one of the two end-anchored regexes (final-artifact or
temporary-artifact suffix); any file matching neither regex is never a
deletion candidate. -/
theorem c5_amended_only_suffix_matches_deleted (keep : Nat)
    (files : List String) (f : String) (hf : f ∈ toDelete keep files) :
    (isBackupFile f = true ∨ isFailedBackupFile f = true) ∧ f ∈ files := by
  rcases List.mem_append.mp hf with h | h
  · have h1 : f ∈ backupsSorted files := List.drop_subset _ _ h
    have h3 := List.mem_filter.mp (mem_backupsSorted.mp h1)
    exact ⟨Or.inl h3.2, h3.1⟩
  · have h3 := List.mem_filter.mp h
    exact ⟨Or.inr h3.2, h3.1⟩

/-- Witness for C5 amended at a one-file listing. -/
theorem c5_amended_only_suffix_matches_deleted_app :
    "immich-db-backup-7.sql.gz" ∈ toDelete 0 ["immich-db-backup-7.sql.gz"] ∧
    ((isBackupFile "immich-db-backup-7.sql.gz" = true ∨
        isFailedBackupFile "immich-db-backup-7.sql.gz" = true) ∧
      "immich-db-backup-7.sql.gz" ∈ ["immich-db-backup-7.sql.gz"]) :=
  ⟨by decide,
    c5_amended_only_suffix_matches_deleted 0 ["immich-db-backup-7.sql.gz"]
      "immich-db-backup-7.sql.gz" (by decide)⟩

/-- C3 counterexample: with listing `immich-db-backup-999.sql.gz`,
`immich-db-backup-1000.sql.gz` and keep-count 1, the sweep retains the
999-artifact and deletes the 1000-artifact, although 1000 is the larger
embedded timestamp — the retained artifact is not the most recent one. -/
theorem c3_counterexample :
    retainedBackups 1
        ["immich-db-backup-999.sql.gz", "immich-db-backup-1000.sql.gz"] =
      ["immich-db-backup-999.sql.gz"] ∧
    "immich-db-backup-1000.sql.gz" ∈
      toDelete 1
        ["immich-db-backup-999.sql.gz", "immich-db-backup-1000.sql.gz"] ∧
    "immich-db-backup-999.sql.gz" = mkFinalName "999".data ∧
    "immich-db-backup-1000.sql.gz" = mkFinalName "1000".data ∧
    digitsVal "999".data < digitsVal "1000".data := by
  decide

/-- C3 amended: when every regex-matching file of the listing is a
well-formed final artifact whose embedded timestamp has a fixed number `L`
of digits, a sweep with keep-count `k` retains exactly `min(k, n)` of the
`n` final artifacts, marks the other `n - k` final artifacts for deletion,
reports `(n - k) +` (number of temporaries) deleted files, covers every
final artifact (each is retained or deleted), and every retained artifact
has an embedded timestamp at least as large as that of every deleted final
artifact (the `k` most recent are retained). -/
theorem c3_amended_retention (keep L : Nat) (files : List String)
    (hclass : ∀ f ∈ files, isBackupFile f = true →
      (wellFormedFinalName f = true ∧
        f.data.length = backupLit.length + L + finalSuffix.length)) :
    (retainedBackups keep files).length =
        min keep (files.filter (fun f => isBackupFile f)).length ∧
    ((backupsSorted files).drop keep).length =
        (files.filter (fun f => isBackupFile f)).length - keep ∧
    cleanupDeletedCount keep files =
        ((files.filter (fun f => isBackupFile f)).length - keep) +
          (failedBackups files).length ∧
    (∀ f ∈ files, isBackupFile f = true →
        f ∈ retainedBackups keep files ∨ f ∈ toDelete keep files) ∧
    (∀ d₁ d₂, mkFinalName d₁ ∈ retainedBackups keep files →
        mkFinalName d₂ ∈ toDelete keep files →
        isBackupFile (mkFinalName d₂) = true →
        digitsVal d₂ ≤ digitsVal d₁) := by
  refine ⟨?_, ?_, ?_, ?_, ?_⟩
  · show ((backupsSorted files).take keep).length = _
    rw [List.length_take, length_backupsSorted]
  · rw [List.length_drop, length_backupsSorted]
  · unfold cleanupDeletedCount toDelete
    rw [List.length_append, List.length_drop, length_backupsSorted]
  · intro f hf hb
    have h4 : f ∈ backupsSorted files :=
      mem_backupsSorted.mpr (List.mem_filter.mpr ⟨hf, hb⟩)
    rw [← List.take_append_drop keep (backupsSorted files)] at h4
    rcases List.mem_append.mp h4 with h | h
    · exact Or.inl h
    · exact Or.inr (List.mem_append_left _ h)
  · intro d₁ d₂ h₁ h₂ hb₂
    have h₂' : mkFinalName d₂ ∈ (backupsSorted files).drop keep := by
      rcases List.mem_append.mp h₂ with h | h
      · exact h
      · exfalso
        have hff := (List.mem_filter.mp h).2
        rw [not_backup_of_failed hff] at hb₂
        simp at hb₂
    have hle : strLe (mkFinalName d₂) (mkFinalName d₁) :=
      retained_ge_deleted h₁ h₂'
    have h₁s : mkFinalName d₁ ∈ (backupsSorted files).take keep := h₁
    have h₁f := List.mem_filter.mp
      (mem_backupsSorted.mp (List.take_subset keep (backupsSorted files) h₁s))
    obtain ⟨hw₁, hl₁⟩ := hclass _ h₁f.1 h₁f.2
    obtain ⟨hne₁, hd₁⟩ := wellFormed_mkFinalName_elim hw₁
    have hL₁ : d₁.length = L := mkFinalName_length_elim hl₁
    have h₂f := List.mem_filter.mp
      (mem_backupsSorted.mp (List.drop_subset keep (backupsSorted files) h₂'))
    obtain ⟨hw₂, hl₂⟩ := hclass _ h₂f.1 hb₂
    obtain ⟨hne₂, hd₂⟩ := wellFormed_mkFinalName_elim hw₂
    have hL₂ : d₂.length = L := mkFinalName_length_elim hl₂
    exact (strLe_mkFinalName_iff hd₂ hd₁ (hL₂.trans hL₁.symm)).mp hle

/-- Witness for C3 amended at the spec's example scenario: three final
artifacts 100, 200, 300 plus temporary 400, keep-count 2. -/
theorem c3_amended_retention_app :
    (∀ f ∈ ["immich-db-backup-100.sql.gz", "immich-db-backup-200.sql.gz",
        "immich-db-backup-300.sql.gz", "immich-db-backup-400.sql.gz.tmp"],
      isBackupFile f = true →
      (wellFormedFinalName f = true ∧
        f.data.length = backupLit.length + 3 + finalSuffix.length)) ∧
    ((retainedBackups 2 ["immich-db-backup-100.sql.gz",
        "immich-db-backup-200.sql.gz", "immich-db-backup-300.sql.gz",
        "immich-db-backup-400.sql.gz.tmp"]).length =
      min 2 ((["immich-db-backup-100.sql.gz", "immich-db-backup-200.sql.gz",
        "immich-db-backup-300.sql.gz", "immich-db-backup-400.sql.gz.tmp"].filter
          (fun f => isBackupFile f)).length) ∧
    ((backupsSorted ["immich-db-backup-100.sql.gz",
        "immich-db-backup-200.sql.gz", "immich-db-backup-300.sql.gz",
        "immich-db-backup-400.sql.gz.tmp"]).drop 2).length =
      ((["immich-db-backup-100.sql.gz", "immich-db-backup-200.sql.gz",
        "immich-db-backup-300.sql.gz", "immich-db-backup-400.sql.gz.tmp"].filter
          (fun f => isBackupFile f)).length) - 2 ∧
    cleanupDeletedCount 2 ["immich-db-backup-100.sql.gz",
        "immich-db-backup-200.sql.gz", "immich-db-backup-300.sql.gz",
        "immich-db-backup-400.sql.gz.tmp"] =
      (((["immich-db-backup-100.sql.gz", "immich-db-backup-200.sql.gz",
        "immich-db-backup-300.sql.gz", "immich-db-backup-400.sql.gz.tmp"].filter
          (fun f => isBackupFile f)).length) - 2) +
        (failedBackups ["immich-db-backup-100.sql.gz",
          "immich-db-backup-200.sql.gz", "immich-db-backup-300.sql.gz",
          "immich-db-backup-400.sql.gz.tmp"]).length ∧
    (∀ f ∈ ["immich-db-backup-100.sql.gz", "immich-db-backup-200.sql.gz",
        "immich-db-backup-300.sql.gz", "immich-db-backup-400.sql.gz.tmp"],
      isBackupFile f = true →
        f ∈ retainedBackups 2 ["immich-db-backup-100.sql.gz",
          "immich-db-backup-200.sql.gz", "immich-db-backup-300.sql.gz",
          "immich-db-backup-400.sql.gz.tmp"] ∨
        f ∈ toDelete 2 ["immich-db-backup-100.sql.gz",
          "immich-db-backup-200.sql.gz", "immich-db-backup-300.sql.gz",
          "immich-db-backup-400.sql.gz.tmp"]) ∧
    (∀ d₁ d₂, mkFinalName d₁ ∈ retainedBackups 2 ["immich-db-backup-100.sql.gz",
          "immich-db-backup-200.sql.gz", "immich-db-backup-300.sql.gz",
          "immich-db-backup-400.sql.gz.tmp"] →
        mkFinalName d₂ ∈ toDelete 2 ["immich-db-backup-100.sql.gz",
          "immich-db-backup-200.sql.gz", "immich-db-backup-300.sql.gz",
          "immich-db-backup-400.sql.gz.tmp"] →
        isBackupFile (mkFinalName d₂) = true →
        digitsVal d₂ ≤ digitsVal d₁)) :=
  ⟨by decide,
    c3_amended_retention 2 3 ["immich-db-backup-100.sql.gz",
      "immich-db-backup-200.sql.gz", "immich-db-backup-300.sql.gz",
      "immich-db-backup-400.sql.gz.tmp"] (by decide)⟩

/-- C8: an instance whose `tryLock` returned `false` at bootstrap never has
a cron job registered (its `cronJob` registration stays empty, so nothing
can be run or updated) and its `backupLock` stays `false`, whatever worker
role it has and whatever sequence of `onConfigUpdate` events (each carrying
a has-old-config flag and a new policy) it later receives.  Since the
statement quantifies over every update sequence, it covers every moment of
the instance's lifetime. -/
theorem c8_no_lock_no_cron (workerType : ImmichWorker) (database : CronConfig)
    (updates : List (Bool × CronConfig)) :
    (updates.foldl (fun s u => onConfigUpdate u.1 u.2 s)
        (onBootstrap workerType false database {})).cronJob = none ∧
    (updates.foldl (fun s u => onConfigUpdate u.1 u.2 s)
        (onBootstrap workerType false database {})).backupLock = false := by
  have hboot : onBootstrap workerType false database {} =
      ({} : SchedulerState) := by
    cases workerType <;> rfl
  have hstep : ∀ (s : SchedulerState), s.backupLock = false →
      ∀ u : Bool × CronConfig, onConfigUpdate u.1 u.2 s = s := by
    intro s hs u
    unfold onConfigUpdate
    rw [hs]
    simp
  have hfold : ∀ (l : List (Bool × CronConfig)) (s : SchedulerState),
      s.backupLock = false →
      l.foldl (fun s u => onConfigUpdate u.1 u.2 s) s = s := by
    intro l
    induction l with
    | nil =>
      intro s _
      rfl
    | cons u us ih =>
      intro s hs
      rw [List.foldl_cons, hstep s hs u]
      exact ih s hs
  rw [hboot, hfold updates {} rfl]
  exact ⟨rfl, rfl⟩

/-- C9: in host-mode (`connectionType` ≠ `'url'`) the producer argv is
exactly `['-U', username, '-h', host, '--clean', '--if-exists']`, the
password travels only in the `PGPASSWORD` environment entry of that spawn,
and the argv does not depend on the password at all; in URL-mode the argv
is exactly `[url, '--clean', '--if-exists']` and no `PGPASSWORD` variable
is set (`undefined` is not exported to the child).  The compressor is
spawned with no arguments. -/
theorem c9_connection_args (c : DatabaseConnectionConfig) :
    (c.connectionType ≠ "url" →
      pgdumpArgs c = ["-U", c.username, "-h", c.host, "--clean", "--if-exists"] ∧
      pgdumpEnvPGPASSWORD c = some c.password) ∧
    (c.connectionType = "url" →
      pgdumpArgs c = [c.url, "--clean", "--if-exists"] ∧
      pgdumpEnvPGPASSWORD c = none) ∧
    (∀ p, pgdumpArgs { c with password := p } = pgdumpArgs c) ∧
    gzipArgs = [] := by
  have hurl : ∀ b : DatabaseConnectionConfig,
      isUrlConnection b = true ↔ b.connectionType = "url" := by
    intro b
    simp [isUrlConnection]
  refine ⟨?_, ?_, fun p => rfl, rfl⟩
  · intro h
    have hfalse : isUrlConnection c = false := by
      cases hb : isUrlConnection c
      · rfl
      · exact absurd ((hurl c).mp hb) h
    constructor
    · simp [pgdumpArgs, databaseParams, hfalse]
    · simp [pgdumpEnvPGPASSWORD, hfalse]
  · intro h
    have htrue : isUrlConnection c = true := (hurl c).mpr h
    constructor
    · simp [pgdumpArgs, databaseParams, htrue]
    · simp [pgdumpEnvPGPASSWORD, htrue]

/-- Witness for C9 at one host-mode and one URL-mode configuration. -/
theorem c9_connection_args_app :
    (("host" : String) ≠ "url" ∧
      pgdumpArgs ⟨"host", "postgres://db", "user1", "db1", "pw1"⟩ =
        ["-U", "user1", "-h", "db1", "--clean", "--if-exists"] ∧
      pgdumpEnvPGPASSWORD ⟨"host", "postgres://db", "user1", "db1", "pw1"⟩ =
        some "pw1") ∧
    (("url" : String) = "url" ∧
      pgdumpArgs ⟨"url", "postgres://db", "user1", "db1", "pw1"⟩ =
        ["postgres://db", "--clean", "--if-exists"] ∧
      pgdumpEnvPGPASSWORD ⟨"url", "postgres://db", "user1", "db1", "pw1"⟩ =
        none) :=
  ⟨⟨by decide,
    (c9_connection_args ⟨"host", "postgres://db", "user1", "db1", "pw1"⟩).1
      (by decide)⟩,
   ⟨rfl,
    (c9_connection_args ⟨"url", "postgres://db", "user1", "db1", "pw1"⟩).2.1
      rfl⟩⟩

/-- C10 counterexample: the name embedding timestamp 1000 sorts strictly
before the name embedding timestamp 999 in the JavaScript string order,
while 1000 > 999 — lexicographic order on well-formed names does not
coincide with timestamp order when the digit strings have different
lengths, so the descending sort by name is not always
most-recent-first. -/
theorem c10_counterexample :
    strLtB (mkFinalName "1000".data) (mkFinalName "999".data) = true ∧
    digitsVal "999".data < digitsVal "1000".data := by
  decide

/-- C10 amended: for well-formed final artifact names whose embedded digit
strings have equal length (true of genuine `Date.now()` millisecond values,
13 digits from 2001 to 2286), the JavaScript lexicographic order on the
names coincides exactly with the numeric order of the embedded timestamps,
both strictly and non-strictly. -/
theorem c10_amended_lex_eq_chrono_same_width (d₁ d₂ : List Char)
    (h₁ : ∀ c ∈ d₁, isDig c = true) (h₂ : ∀ c ∈ d₂, isDig c = true)
    (hlen : d₁.length = d₂.length) :
    (strLtB (mkFinalName d₁) (mkFinalName d₂) = true ↔
        digitsVal d₁ < digitsVal d₂) ∧
    (strLe (mkFinalName d₁) (mkFinalName d₂) ↔
        digitsVal d₁ ≤ digitsVal d₂) :=
  ⟨strLtB_mkFinalName_iff h₁ h₂ hlen, strLe_mkFinalName_iff h₁ h₂ hlen⟩

/-- Witness for C10 amended at the equal-width digit strings 100 and 200. -/
theorem c10_amended_lex_eq_chrono_same_width_app :
    ((∀ c ∈ "100".data, isDig c = true) ∧ (∀ c ∈ "200".data, isDig c = true) ∧
      "100".data.length = "200".data.length) ∧
    ((strLtB (mkFinalName "100".data) (mkFinalName "200".data) = true ↔
        digitsVal "100".data < digitsVal "200".data) ∧
      (strLe (mkFinalName "100".data) (mkFinalName "200".data) ↔
        digitsVal "100".data ≤ digitsVal "200".data)) :=
  ⟨⟨by decide, by decide, by decide⟩,
    c10_amended_lex_eq_chrono_same_width "100".data "200".data
      (by decide) (by decide) (by decide)⟩

end BackupVerify
